import Mathlib

/-!
# Verification of `converter_heic_para_jpeg.py`

Shallow embedding of the HEIC/HEIF batch converter, together with theorems
about each component:

* `_listar_ficheiros_heic` — the file enumerator (`os.walk` / `os.listdir`
  based traversal filtering on the `.heic`/`.heif` extensions);
* `_salvar_imagem` — the single-file converter (the Pillow decode/encode
  call is abstracted: the decoded image is a record of its color mode and
  metadata blobs, and `ImageOps.exif_transpose` is an oracle parameter);
* `converter_heic` — the batch orchestrator (validation, destination
  creation, enumeration, the skip-existing check, task submission, and the
  success/error tallies).

Filesystem paths are modelled as lists of path components (`List String`);
`os.path.join root name` is `root ++ [name]`, and `os.path.relpath` of a
path produced by the walk with respect to the walk root is the component
list below the root.  The directory tree under the source root is a
`List Entry`.  Side effects of a run (directory creation, task submission)
are recorded in an event list; the success of one conversion task is an
oracle `ok : List String → Bool` (the orchestrator treats each submitted
future as opaque, only observing success or exception).  The tallies are
folded in submission order: the Python code folds them in completion order
(`as_completed`), but `Nat` addition is commutative, so the resulting pair
is the same for every completion order.
-/

namespace ConverterHeic

/-- One entry of a directory listing: a plain file or a subdirectory with
its own listing.  The listing order of a `List Entry` models the
filesystem's native iteration order (the order `os.scandir` reports). -/
inductive Entry where
  | file (nome : String)
  | dir (nome : String) (filhos : List Entry)

/-- The name of a directory entry (what `os.listdir` reports for it). -/
def Entry.nome : Entry → String
  | .file n => n
  | .dir n _ => n

/-- Python's `str.lower()`, mapped over the characters (the strings this
program lowercases — format names and extensions — are ASCII). -/
def pyLower (s : String) : String := String.mk (s.data.map Char.toLower)

/-- `os.path.splitext` on a single path component (no separators): split at
the last dot, except that a dot with only dots before it (a leading-dot
name such as `.bashrc` or `..heic`) starts no extension. -/
def splitext (s : String) : String × String :=
  match s.data.reverse.findIdx? (fun c => c == '.') with
  | none => (s, "")
  | some j =>
    if (s.data.take (s.data.length - 1 - j)).all (fun c => c == '.') then (s, "")
    else (String.mk (s.data.take (s.data.length - 1 - j)),
          String.mk (s.data.drop (s.data.length - 1 - j)))

/-- `os.path.splitext(f)[1].lower() in {".heic", ".heif"}` — the extension
filter of the enumerator (line 25 / line 31 of the source). -/
def extOk (f : String) : Bool :=
  pyLower (splitext f).2 == ".heic" || pyLower (splitext f).2 == ".heif"

/-- The `.heic`/`.heif` files among the entries of one directory listing,
in listing order (the inner `for f in ficheiros` loop of the walk). -/
def heicAqui (es : List Entry) : List String :=
  es.filterMap fun e =>
    match e with
    | .file n => if extOk n then some n else none
    | .dir _ _ => none

mutual
/-- The matching files contributed by one directory entry during the
top-down `os.walk`: a plain file contributes nothing here (the parent's
listing already reported it), and a subdirectory contributes its own
matching files followed by its subdirectories recursively.  `rel` is the
component path of the parent directory relative to the walk root. -/
def walkEntry (rel : List String) : Entry → List (List String)
  | Entry.file _ => []
  | Entry.dir n ch =>
      (heicAqui ch).map (fun m => rel ++ [n, m]) ++ walkDirs (rel ++ [n]) ch

/-- The matching files contributed by the subdirectories among `es`, in
listing order (`os.walk` recurses into the subdirectories of the current
directory in the order they were listed). -/
def walkDirs (rel : List String) : List Entry → List (List String)
  | [] => []
  | e :: es => walkEntry rel e ++ walkDirs rel es
end

/-- All matching files of the tree rooted at the current directory, in
`os.walk` top-down order: the current directory's matching files first,
then each subdirectory recursively. -/
def walkHeic (rel : List String) (es : List Entry) : List (List String) :=
  (heicAqui es).map (fun m => rel ++ [m]) ++ walkDirs rel es

/-- `_listar_ficheiros_heic` (source lines 15-33).  Recursive mode walks
the whole tree with `os.walk` and yields
`(os.path.join(raiz, f), os.path.relpath(..., pasta_origem_abs))` pairs;
non-recursive mode filters the names reported by `os.listdir` — note that
`os.listdir` reports every entry, directories included, and the source does
not check `os.path.isfile`. -/
def _listar_ficheiros_heic (origemAbs : List String) (arvore : List Entry)
    (recursivo : Bool) : List (List String × List String) :=
  if recursivo then
    (walkHeic [] arvore).map (fun rel => (origemAbs ++ rel, rel))
  else
    (arvore.map Entry.nome).filterMap fun f =>
      if extOk f then some (origemAbs ++ [f], [f]) else none

/-- Specification-side characterisation of the recursive enumeration: the
component path `q` names a file of the tree whose extension passes the
`.heic`/`.heif` filter. -/
inductive HeicFile : List Entry → List String → Prop where
  | file {es : List Entry} {n : String} :
      Entry.file n ∈ es → extOk n = true → HeicFile es [n]
  | dir {es : List Entry} {n : String} {ch : List Entry} {rest : List String} :
      Entry.dir n ch ∈ es → HeicFile ch rest → HeicFile es (n :: rest)

/-- Replace the extension of the last component of a relative path: the
component-list counterpart of `os.path.splitext(rel_path)[0] + ext_out`
(Python's `splitext` splits at the last dot of the last component). -/
def replaceLastExt (rel : List String) (ext_out : String) : List String :=
  match rel with
  | [] => [ext_out]
  | [n] => [(splitext n).1 ++ ext_out]
  | n :: rest => n :: replaceLastExt rest ext_out

/-- `destino_para` (source lines 118-123): drop the input extension, append
`".jpg"` when the format is `"jpeg"` and `".png"` otherwise, and join under
the absolute destination root.  (The `os.makedirs` it performs is recorded
as an event by the orchestrator loop.) -/
def destino_para (destinoAbs : List String) (formato : String)
    (rel : List String) : List String :=
  destinoAbs ++ replaceLastExt rel (if formato == "jpeg" then ".jpg" else ".png")

/-- Observable filesystem actions of a batch run, in program order:
`makedirs` for each `os.makedirs(..., exist_ok=True)` call and `submit` for
each task handed to the thread pool (with the input path, the computed
output path, and the format string passed to `_salvar_imagem`). -/
inductive Event where
  | makedirs (caminho : List String)
  | submit (entrada saida : List String) (formato : String)
deriving DecidableEq

/-- The two fatal exceptions of `converter_heic`: `FileNotFoundError` for a
missing/non-directory source (line 101) and `ValueError` for an
unrecognised format (line 105). -/
inductive Err where
  | fileNotFound
  | valueError
deriving DecidableEq

deriving instance DecidableEq for Except

/-- The filesystem state a run starts from: whether the source path is a
directory (`os.path.isdir`), the listing tree under the source root, and
the set of destination-side paths that already exist (queried by
`os.path.exists` for the skip check). -/
structure FS where
  origemEhDir : Bool
  arvore : List Entry
  existentes : List (List String)

/-- The tasks submitted to the pool (source lines 143-160): one per
enumerated file, except those skipped because overwrite is off and the
output path already exists.  Each task pairs the input path with its
computed output path. -/
def tarefasDe (ficheiros : List (List String × List String))
    (destinoAbs : List String) (formato : String)
    (existentes : List (List String)) (overwrite : Bool) :
    List (List String × List String) :=
  ficheiros.filterMap fun par =>
    if !overwrite && existentes.contains (destino_para destinoAbs formato par.2)
    then none
    else some (par.1, destino_para destinoAbs formato par.2)

/-- The events of the submission loop, in program order: for each
enumerated file, the `os.makedirs(os.path.dirname(caminho_out))` performed
inside `destino_para`, followed by the submission unless the file is
skipped. -/
def eventosCiclo (ficheiros : List (List String × List String))
    (destinoAbs : List String) (formato : String)
    (existentes : List (List String)) (overwrite : Bool) : List Event :=
  ficheiros.flatMap fun par =>
    Event.makedirs (destino_para destinoAbs formato par.2).dropLast ::
      (if !overwrite && existentes.contains (destino_para destinoAbs formato par.2)
       then []
       else [Event.submit par.1 (destino_para destinoAbs formato par.2) formato])

/-- The `as_completed` tally loop (source lines 162-168): each task
increments the success counter when its future returns and the error
counter when it raises.  The fold is written in submission order; the pair
it produces is invariant under permutation of the task list, so it agrees
with every completion order. -/
def contarResultados (ok : List String → Bool)
    (tarefas : List (List String × List String)) : Nat × Nat :=
  tarefas.foldl
    (fun acc t => if ok t.1 then (acc.1 + 1, acc.2) else (acc.1, acc.2 + 1))
    (0, 0)

/-- Whether an event is a task submission. -/
def ehSubmit : Event → Bool
  | .submit _ _ _ => true
  | .makedirs _ => false

/-- `converter_heic` (source lines 82-173).  Arguments follow the Python
signature (the oracle `ok` stands for the thread-pool execution of
`_salvar_imagem`: `ok entrada = true` iff that task's future returns
without raising; `cpuCount` models `os.cpu_count() or 2`).  Returns the
event trace together with either a fatal exception or the
`(convertidos, erros)` pair. -/
def converter_heic (fs : FS) (origemAbs destinoAbs : List String)
    (ok : List String → Bool) (qualidade : Int) (subsampling : Int)
    (progressivo : Bool) (otimizar : Bool) (manter_metadata : Bool)
    (recursivo : Bool) (overwrite : Bool) (formato : String)
    (threads : Int) (cpuCount : Nat) :
    List Event × Except Err (Nat × Nat) :=
  if !fs.origemEhDir then ([], Except.error Err.fileNotFound)
  else
    -- `formato = formato.lower()` (line 103): the lowercased value is the
    -- one used below for validation, output naming and task submission.
    if !(pyLower formato == "jpeg" || pyLower formato == "png") then
      ([], Except.error Err.valueError)
    else
      -- `qualidade > 95` with jpeg only prints a console warning (line 108);
      -- quality is never validated.
      let ficheiros := _listar_ficheiros_heic origemAbs fs.arvore recursivo
      if ficheiros.isEmpty then ([Event.makedirs destinoAbs], Except.ok (0, 0))
      else
        -- thread-count resolution (lines 132-133); the pool size does not
        -- affect the trace or the tallies.
        let _threads : Int :=
          if threads ≤ 0 then Int.ofNat (max 1 (min 32 cpuCount)) else threads
        let tarefas :=
          tarefasDe ficheiros destinoAbs (pyLower formato) fs.existentes overwrite
        (Event.makedirs destinoAbs ::
            eventosCiclo ficheiros destinoAbs (pyLower formato) fs.existentes
              overwrite,
         Except.ok (contarResultados ok tarefas))

/-- The decoded image as the converter observes it: its color mode and the
`info` metadata entries it reads (`"exif"` and `"icc_profile"` raw byte
blobs, absent when the key is missing). -/
structure ImageInfo where
  mode : String
  exif : Option (List Nat)
  icc : Option (List Nat)

/-- The arguments of the final Pillow `save` call: target format, the color
mode of the image being encoded, the optional encoder parameters, and the
metadata blobs passed along. -/
structure Saved where
  formatoGravado : String
  mode : String
  quality : Option Int
  subsampling : Option Int
  progressive : Option Bool
  optimize : Option Bool
  exif : Option (List Nat)
  icc : Option (List Nat)
deriving DecidableEq

/-- Python truthiness of an optional byte blob: `if exif:` is false both
for a missing entry and for an empty blob. -/
def pyTruthy : Option (List Nat) → Bool
  | none => false
  | some b => !b.isEmpty

/-- `_salvar_imagem` (source lines 36-79), with the Pillow calls shallowly
embedded: `ImageOps.exif_transpose` is the oracle `exifTranspose`;
`im.convert("RGB")` forces the mode to `"RGB"`; `im.save(...)` is the
returned `Saved` record.  For jpeg the exif and icc blobs are attached only
when truthy (`if exif:` / `if icc:`); for png only the icc profile is ever
attached; any other format raises `ValueError`. -/
def _salvar_imagem (exifTranspose : ImageInfo → ImageInfo)
    (imagem : ImageInfo) (formato : String) (qualidade : Int)
    (subsampling : Int) (progressivo : Bool) (otimizar : Bool)
    (manter_metadata : Bool) : Except String Saved :=
  let im := exifTranspose imagem
  let exif := if manter_metadata then im.exif else none
  let icc := if manter_metadata then im.icc else none
  if formato == "jpeg" then
    Except.ok
      (Saved.mk "JPEG" "RGB" (some qualidade) (some subsampling)
        (some progressivo) (some otimizar)
        (if pyTruthy exif then exif else none)
        (if pyTruthy icc then icc else none))
  else if formato == "png" then
    Except.ok
      (Saved.mk "PNG" im.mode none none none none none
        (if pyTruthy icc then icc else none))
  else Except.error ("Formato nao suportado: " ++ formato)

/-! ## Helper lemmas -/

/-- The two halves produced by `splitext` recombine to the original name. -/
theorem splitext_recomb (s : String) : (splitext s).1 ++ (splitext s).2 = s := by
  obtain ⟨cs⟩ := s
  unfold splitext
  split
  · simp
  · split
    · simp
    · show String.mk _ ++ String.mk _ = String.mk cs
      rw [show ∀ a b : List Char, String.mk a ++ String.mk b = String.mk (a ++ b)
            from fun a b => rfl]
      rw [List.take_append_drop]

/-- Unfolding of the Boolean extension test into the two accepted values. -/
theorem extOk_iff (f : String) :
    extOk f = true ↔
      pyLower (splitext f).2 = ".heic" ∨ pyLower (splitext f).2 = ".heif" := by
  unfold extOk
  simp [Bool.or_eq_true]

/-- Membership in the per-directory matching-file list. -/
theorem mem_heicAqui {es : List Entry} {m : String} :
    m ∈ heicAqui es ↔ Entry.file m ∈ es ∧ extOk m = true := by
  unfold heicAqui
  rw [List.mem_filterMap]
  constructor
  · rintro ⟨e, he, hsome⟩
    cases e with
    | file n =>
      by_cases h : extOk n = true
      · simp only [h, if_true, Option.some.injEq] at hsome
        subst hsome
        exact ⟨he, h⟩
      · simp [h] at hsome
    | dir n ch => simp at hsome
  · rintro ⟨he, hok⟩
    exact ⟨Entry.file m, he, by simp [hok]⟩

/-- Inversion principle for `HeicFile`. -/
theorem heicFile_iff (es : List Entry) (q : List String) :
    HeicFile es q ↔
      (∃ m, Entry.file m ∈ es ∧ extOk m = true ∧ q = [m]) ∨
      (∃ n ch rest, Entry.dir n ch ∈ es ∧ HeicFile ch rest ∧ q = n :: rest) := by
  constructor
  · intro h
    cases h with
    | file hm hok => exact Or.inl ⟨_, hm, hok, rfl⟩
    | dir hm hrest => exact Or.inr ⟨_, _, _, hm, hrest, rfl⟩
  · rintro (⟨m, hm, hok, rfl⟩ | ⟨n, ch, rest, hm, hrest, rfl⟩)
    · exact HeicFile.file hm hok
    · exact HeicFile.dir hm hrest

/-- A path matched by the walk ends in a file name passing the extension
filter. -/
theorem heicFile_shape {es : List Entry} {q : List String} (h : HeicFile es q) :
    ∃ ds n, q = ds ++ [n] ∧ extOk n = true := by
  induction h with
  | file hm hok => exact ⟨[], _, rfl, hok⟩
  | dir hm hrest ih =>
    obtain ⟨ds, n, rfl, hok⟩ := ih
    exact ⟨_ :: ds, n, rfl, hok⟩

mutual
/-- Membership in the walk of one entry's subtree. -/
theorem mem_walkEntry_iff :
    ∀ (rel : List String) (e : Entry) (p : List String),
      p ∈ walkEntry rel e ↔
        ∃ n ch rest, e = Entry.dir n ch ∧ HeicFile ch rest ∧ p = rel ++ n :: rest
  | rel, Entry.file m, p => by simp [walkEntry]
  | rel, Entry.dir n ch, p => by
    have hB := mem_walkDirs_iff (rel ++ [n]) ch p
    rw [show walkEntry rel (Entry.dir n ch)
          = (heicAqui ch).map (fun m => rel ++ [n, m]) ++ walkDirs (rel ++ [n]) ch
        from rfl]
    simp only [List.mem_append, List.mem_map, mem_heicAqui, hB]
    constructor
    · rintro (⟨m, ⟨hmem, hok⟩, rfl⟩ | ⟨n2, ch2, rest, hm, hr, rfl⟩)
      · exact ⟨n, ch, [m], rfl, HeicFile.file hmem hok, rfl⟩
      · exact ⟨n, ch, n2 :: rest, rfl, HeicFile.dir hm hr, by simp⟩
    · rintro ⟨n2, ch2, rest, heq, hr, rfl⟩
      injection heq with h1 h2
      subst h1
      subst h2
      rcases (heicFile_iff ch rest).mp hr with
        ⟨m, hmm, hok, rfl⟩ | ⟨n3, ch3, r3, hm3, hr3, rfl⟩
      · exact Or.inl ⟨m, ⟨hmm, hok⟩, rfl⟩
      · exact Or.inr ⟨n3, ch3, r3, hm3, hr3, by simp⟩

/-- Membership in the subdirectory part of the walk. -/
theorem mem_walkDirs_iff :
    ∀ (rel : List String) (es : List Entry) (p : List String),
      p ∈ walkDirs rel es ↔
        ∃ n ch rest, Entry.dir n ch ∈ es ∧ HeicFile ch rest ∧ p = rel ++ n :: rest
  | rel, [], p => by simp [walkDirs]
  | rel, e :: es, p => by
    have hE := mem_walkEntry_iff rel e p
    have hT := mem_walkDirs_iff rel es p
    rw [show walkDirs rel (e :: es) = walkEntry rel e ++ walkDirs rel es from rfl]
    simp only [List.mem_append, hE, hT]
    constructor
    · rintro (⟨n, ch, rest, rfl, hr, rfl⟩ | ⟨n, ch, rest, hm, hr, rfl⟩)
      · exact ⟨n, ch, rest, List.mem_cons_self _ _, hr, rfl⟩
      · exact ⟨n, ch, rest, List.mem_cons_of_mem _ hm, hr, rfl⟩
    · rintro ⟨n, ch, rest, hm, hr, rfl⟩
      rcases List.mem_cons.mp hm with h | h
      · exact Or.inl ⟨n, ch, rest, h.symm, hr, rfl⟩
      · exact Or.inr ⟨n, ch, rest, h, hr, rfl⟩
end

/-- Membership in the full walk: exactly the matching files of the tree,
prefixed by the relative path of the walk root. -/
theorem mem_walkHeic_iff (rel : List String) (es : List Entry) (p : List String) :
    p ∈ walkHeic rel es ↔ ∃ q, HeicFile es q ∧ p = rel ++ q := by
  unfold walkHeic
  simp only [List.mem_append, List.mem_map, mem_heicAqui, mem_walkDirs_iff]
  constructor
  · rintro (⟨m, ⟨hm, hok⟩, rfl⟩ | ⟨n, ch, rest, hm, hr, rfl⟩)
    · exact ⟨[m], HeicFile.file hm hok, rfl⟩
    · exact ⟨n :: rest, HeicFile.dir hm hr, rfl⟩
  · rintro ⟨q, hq, rfl⟩
    rcases (heicFile_iff es q).mp hq with
      ⟨m, hm, hok, rfl⟩ | ⟨n, ch, rest, hm, hr, rfl⟩
    · exact Or.inl ⟨m, ⟨hm, hok⟩, rfl⟩
    · exact Or.inr ⟨n, ch, rest, hm, hr, rfl⟩

/-- Membership in the recursive enumeration. -/
theorem mem_listar_true_iff (origem : List String) (arvore : List Entry)
    (a r : List String) :
    (a, r) ∈ _listar_ficheiros_heic origem arvore true ↔
      HeicFile arvore r ∧ a = origem ++ r := by
  unfold _listar_ficheiros_heic
  simp only [if_true, List.mem_map, Prod.mk.injEq]
  constructor
  · rintro ⟨rel, hrel, ha, rfl⟩
    obtain ⟨q, hq, hrelq⟩ := (mem_walkHeic_iff [] arvore rel).mp hrel
    rw [List.nil_append] at hrelq
    subst hrelq
    exact ⟨hq, ha.symm⟩
  · rintro ⟨hr, rfl⟩
    exact ⟨r, (mem_walkHeic_iff [] arvore r).mpr ⟨r, hr, (List.nil_append r).symm⟩,
      rfl, rfl⟩

/-- Membership in the non-recursive enumeration: every directory entry —
file or subdirectory — whose name passes the extension filter. -/
theorem mem_listar_false_iff (origem : List String) (arvore : List Entry)
    (a r : List String) :
    (a, r) ∈ _listar_ficheiros_heic origem arvore false ↔
      ∃ e, e ∈ arvore ∧ extOk e.nome = true ∧ r = [e.nome] ∧
        a = origem ++ [e.nome] := by
  unfold _listar_ficheiros_heic
  simp only [Bool.false_eq_true, if_false, List.mem_filterMap, List.mem_map]
  constructor
  · rintro ⟨f, ⟨e, he, rfl⟩, hsome⟩
    by_cases h : extOk e.nome = true
    · simp only [h, if_true, Option.some.injEq, Prod.mk.injEq] at hsome
      obtain ⟨ha, hr⟩ := hsome
      exact ⟨e, he, h, hr.symm, ha.symm⟩
    · simp [h] at hsome
  · rintro ⟨e, he, hok, rfl, rfl⟩
    exact ⟨e.nome, ⟨e, he, rfl⟩, by simp [hok]⟩

/-- Every enumerated pair satisfies `absolute = root ++ relative`. -/
theorem listar_fst {origem : List String} {arvore : List Entry}
    {recursivo : Bool} {a r : List String}
    (h : (a, r) ∈ _listar_ficheiros_heic origem arvore recursivo) :
    a = origem ++ r := by
  cases recursivo with
  | true => exact ((mem_listar_true_iff origem arvore a r).mp h).2
  | false =>
    obtain ⟨e, _, _, rfl, ha⟩ := (mem_listar_false_iff origem arvore a r).mp h
    exact ha

/-- Replacing the extension of the last component of `ds ++ [n]`. -/
theorem replaceLastExt_concat (ds : List String) (n e : String) :
    replaceLastExt (ds ++ [n]) e = ds ++ [(splitext n).1 ++ e] := by
  induction ds with
  | nil => rfl
  | cons d ds ih =>
    cases ds with
    | nil => rfl
    | cons d2 ds2 =>
      simp only [List.cons_append, replaceLastExt]
      exact congrArg (fun l => d :: l) ih

/-- Membership in the submitted-task list. -/
theorem mem_tarefasDe_iff (ficheiros : List (List String × List String))
    (dest : List String) (F : String) (ex : List (List String)) (ow : Bool)
    (t : List String × List String) :
    t ∈ tarefasDe ficheiros dest F ex ow ↔
      ∃ par, par ∈ ficheiros ∧
        (!ow && ex.contains (destino_para dest F par.2)) = false ∧
        t = (par.1, destino_para dest F par.2) := by
  unfold tarefasDe
  rw [List.mem_filterMap]
  constructor
  · rintro ⟨par, hpar, hsome⟩
    by_cases h : (!ow && ex.contains (destino_para dest F par.2)) = true
    · rw [if_pos h] at hsome
      cases hsome
    · rw [if_neg h] at hsome
      rw [Bool.not_eq_true] at h
      exact ⟨par, hpar, h, (Option.some.inj hsome).symm⟩
  · rintro ⟨par, hpar, hc, rfl⟩
    exact ⟨par, hpar, by rw [if_neg (by simp only [hc]; decide)]⟩

/-- The submission events of the loop are exactly the non-skipped files. -/
theorem submit_mem_eventosCiclo_iff (ficheiros : List (List String × List String))
    (dest : List String) (F : String) (ex : List (List String)) (ow : Bool)
    (a s : List String) (f : String) :
    Event.submit a s f ∈ eventosCiclo ficheiros dest F ex ow ↔
      ∃ par, par ∈ ficheiros ∧
        (!ow && ex.contains (destino_para dest F par.2)) = false ∧
        a = par.1 ∧ s = destino_para dest F par.2 ∧ f = F := by
  unfold eventosCiclo
  rw [List.mem_flatMap]
  constructor
  · rintro ⟨par, hpar, hmem⟩
    rcases List.mem_cons.mp hmem with h | h
    · simp at h
    · by_cases hc : (!ow && ex.contains (destino_para dest F par.2)) = true
      · rw [if_pos hc] at h
        exact absurd h (List.not_mem_nil _)
      · rw [if_neg hc] at h
        rw [Bool.not_eq_true] at hc
        obtain ⟨rfl, rfl, rfl⟩ := Event.submit.inj (List.mem_singleton.mp h)
        exact ⟨par, hpar, hc, rfl, rfl, rfl⟩
  · rintro ⟨par, hpar, hc, rfl, rfl, rfl⟩
    refine ⟨par, hpar, List.mem_cons_of_mem _ ?_⟩
    rw [if_neg (by simp only [hc]; decide)]
    exact List.mem_singleton_self _

/-- The tally fold computes the sizes of the success/failure partition of
the submitted-task list. -/
theorem contarResultados_spec (ok : List String → Bool)
    (ts : List (List String × List String)) :
    contarResultados ok ts
      = ((ts.filter fun t => ok t.1).length,
         (ts.filter fun t => !ok t.1).length) := by
  have h : ∀ (ts : List (List String × List String)) (c e : Nat),
      ts.foldl
        (fun acc t => if ok t.1 then (acc.1 + 1, acc.2) else (acc.1, acc.2 + 1))
        (c, e)
        = (c + (ts.filter fun t => ok t.1).length,
           e + (ts.filter fun t => !ok t.1).length) := by
    intro ts
    induction ts with
    | nil => intro c e; simp
    | cons t ts ih =>
      intro c e
      rw [List.foldl_cons]
      cases hok : ok t.1 with
      | true =>
        rw [if_pos rfl,
          show (((c, e).1 + 1, (c, e).2) : Nat × Nat) = (c + 1, e) from rfl, ih,
          List.filter_cons_of_pos (by simpa using hok),
          List.filter_cons_of_neg (by simp [hok]),
          List.length_cons, Prod.mk.injEq]
        exact ⟨by omega, rfl⟩
      | false =>
        rw [if_neg (by decide),
          show (((c, e).1, (c, e).2 + 1) : Nat × Nat) = (c, e + 1) from rfl, ih,
          List.filter_cons_of_neg (by simp [hok]),
          List.filter_cons_of_pos (by simp [hok]),
          List.length_cons, Prod.mk.injEq]
        exact ⟨rfl, by omega⟩
  have h0 := h ts 0 0
  simpa [contarResultados] using h0

/-- The two filtered halves of a list partition its length. -/
theorem length_filter_add_length_filter_not {α : Type} (p : α → Bool)
    (l : List α) :
    (l.filter p).length + (l.filter fun x => !p x).length = l.length := by
  induction l with
  | nil => rfl
  | cons x l ih =>
    cases hx : p x <;> simp [List.filter_cons, hx] <;> omega

/-- The loop emits one submission event per submitted task. -/
theorem countSubmits_eventosCiclo (ficheiros : List (List String × List String))
    (dest : List String) (F : String) (ex : List (List String)) (ow : Bool) :
    ((eventosCiclo ficheiros dest F ex ow).filter ehSubmit).length
      = (tarefasDe ficheiros dest F ex ow).length := by
  induction ficheiros with
  | nil => rfl
  | cons par fich ih =>
    have hEv : eventosCiclo (par :: fich) dest F ex ow
        = (Event.makedirs (destino_para dest F par.2).dropLast ::
            (if (!ow && ex.contains (destino_para dest F par.2)) = true then []
             else [Event.submit par.1 (destino_para dest F par.2) F]))
          ++ eventosCiclo fich dest F ex ow := rfl
    rw [hEv, List.filter_append, List.length_append, List.filter_cons_of_neg
      (by simp [ehSubmit])]
    by_cases hc : (!ow && ex.contains (destino_para dest F par.2)) = true
    · have hT : tarefasDe (par :: fich) dest F ex ow = tarefasDe fich dest F ex ow := by
        unfold tarefasDe
        simp only [List.filterMap_cons, if_pos hc]
      rw [hT, if_pos hc]
      simpa using ih
    · have hT : tarefasDe (par :: fich) dest F ex ow
          = (par.1, destino_para dest F par.2) :: tarefasDe fich dest F ex ow := by
        unfold tarefasDe
        simp only [List.filterMap_cons, if_neg hc]
      rw [hT, if_neg hc, List.length_cons]
      rw [List.filter_cons_of_pos (by simp [ehSubmit]), List.length_cons]
      simp only [List.filter_nil, List.length_nil]
      omega

/-- A run whose source is a directory fails with `ValueError` as soon as
the lowercased format is neither `"jpeg"` nor `"png"`. -/
theorem converter_heic_invalido (arv : List Entry) (ex : List (List String))
    (origem destino : List String) (ok : List String → Bool) (q ss : Int)
    (pr ot mm rec ow : Bool) (formato : String) (threads : Int) (cpu : Nat)
    (hfmt : (pyLower formato == "jpeg" || pyLower formato == "png") = false) :
    converter_heic (FS.mk true arv ex) origem destino ok q ss pr ot mm rec ow
      formato threads cpu = ([], Except.error Err.valueError) := by
  unfold converter_heic
  rw [show ((FS.mk true arv ex).origemEhDir) = true from rfl]
  rw [show (!true) = false from rfl]
  rw [if_neg (by decide)]
  rw [hfmt]
  rw [show (!false) = true from rfl]
  rw [if_pos rfl]

/-- Unfolding of a run that passes both preconditions: the result is the
zero/zero summary for an empty enumeration and the loop trace with the
tallies over the submitted tasks otherwise. -/
theorem converter_heic_valido (arv : List Entry) (ex : List (List String))
    (origem destino : List String) (ok : List String → Bool) (q ss : Int)
    (pr ot mm rec ow : Bool) (formato : String) (threads : Int) (cpu : Nat)
    (hfmt : (pyLower formato == "jpeg" || pyLower formato == "png") = true) :
    converter_heic (FS.mk true arv ex) origem destino ok q ss pr ot mm rec ow
      formato threads cpu
      = if (_listar_ficheiros_heic origem arv rec).isEmpty
        then ([Event.makedirs destino], Except.ok (0, 0))
        else
          (Event.makedirs destino ::
              eventosCiclo (_listar_ficheiros_heic origem arv rec) destino
                (pyLower formato) ex ow,
           Except.ok (contarResultados ok
              (tarefasDe (_listar_ficheiros_heic origem arv rec) destino
                (pyLower formato) ex ow))) := by
  unfold converter_heic
  rw [show ((FS.mk true arv ex).origemEhDir) = true from rfl]
  rw [show (!true) = false from rfl]
  rw [if_neg (by decide)]
  rw [hfmt]
  rw [show (!true) = false from rfl]
  rw [if_neg (by decide)]

/-- Turn the propositional format hypothesis of the claims into the Boolean
guard tested by `converter_heic`. -/
theorem formato_bool_of_or {formato : String}
    (h : pyLower formato = "jpeg" ∨ pyLower formato = "png") :
    (pyLower formato == "jpeg" || pyLower formato == "png") = true := by
  rcases h with h | h <;> simp [h]

/-- A nonempty enumeration has `isEmpty = false`. -/
theorem isEmpty_false_of_mem {l : List (List String × List String)}
    {x : List String × List String} (h : x ∈ l) : l.isEmpty = false := by
  cases l with
  | nil => cases h
  | cons a l => rfl

/-- When every enumerated file is skipped, no task at all is submitted. -/
theorem tarefasDe_eq_nil (ficheiros : List (List String × List String))
    (dest : List String) (F : String) (ex : List (List String)) (ow : Bool)
    (h : ∀ par ∈ ficheiros,
      (!ow && ex.contains (destino_para dest F par.2)) = true) :
    tarefasDe ficheiros dest F ex ow = [] := by
  induction ficheiros with
  | nil => rfl
  | cons par fich ih =>
    unfold tarefasDe
    rw [List.filterMap_cons_none
      (by simp only [if_pos (h par (List.mem_cons_self _ _))])]
    exact ih fun p hp => h p (List.mem_cons_of_mem _ hp)

/-! ## Claims -/

/-- C1 (amended): a bad format value is a configuration error, fatal and
surfaced before any file is touched — the run returns `ValueError` with an
empty event trace (nothing enumerated, no directory created, no task
submitted).  A quality value out of the sane range is NOT validated: with a
recognised format the run returns a normal summary for every quality value
(quality above 95 with jpeg only prints a console warning). -/
theorem claim_C1 (fs : FS) (origem destino : List String)
    (ok : List String → Bool) (qualidade subsampling : Int)
    (progressivo otimizar manter_metadata recursivo overwrite : Bool)
    (formato : String) (threads : Int) (cpuCount : Nat)
    (hdir : fs.origemEhDir = true) :
    (¬(pyLower formato = "jpeg" ∨ pyLower formato = "png") →
      converter_heic fs origem destino ok qualidade subsampling progressivo
        otimizar manter_metadata recursivo overwrite formato threads cpuCount
        = ([], Except.error Err.valueError)) ∧
    ((pyLower formato = "jpeg" ∨ pyLower formato = "png") →
      ∃ resumo, (converter_heic fs origem destino ok qualidade subsampling
        progressivo otimizar manter_metadata recursivo overwrite formato
        threads cpuCount).2 = Except.ok resumo) := by
  obtain ⟨d, arv, ex⟩ := fs
  have hd : d = true := hdir
  subst hd
  constructor
  · intro h
    have hb : (pyLower formato == "jpeg" || pyLower formato == "png") = false :=
      Bool.or_eq_false_iff.mpr
        ⟨beq_eq_false_iff_ne.mpr fun he => h (Or.inl he),
         beq_eq_false_iff_ne.mpr fun he => h (Or.inr he)⟩
    exact converter_heic_invalido arv ex origem destino ok qualidade subsampling
      progressivo otimizar manter_metadata recursivo overwrite formato threads
      cpuCount hb
  · intro h
    rw [converter_heic_valido arv ex origem destino ok qualidade subsampling
      progressivo otimizar manter_metadata recursivo overwrite formato threads
      cpuCount (formato_bool_of_or h)]
    by_cases hE : (_listar_ficheiros_heic origem arv recursivo).isEmpty = true
    · rw [if_pos hE]
      exact ⟨(0, 0), rfl⟩
    · rw [if_neg hE]
      exact ⟨_, rfl⟩

/-- C1, counterexample to the claim as stated: with quality `0` — outside
the sane range 1-100 — and format jpeg, the run is not aborted: it
enumerates the single file, submits it, and returns the summary `(1, 0)`.
Quality is never validated by the code. -/
theorem claim_C1_cex :
    (converter_heic (FS.mk true [Entry.file "a.heic"] []) ["src"] ["dst"]
        (fun _ => true) 0 0 true true true true false "jpeg" 0 2).2
      = Except.ok (1, 0)
    ∧ Event.submit ["src", "a.heic"] ["dst", "a.jpg"] "jpeg"
        ∈ (converter_heic (FS.mk true [Entry.file "a.heic"] []) ["src"] ["dst"]
            (fun _ => true) 0 0 true true true true false "jpeg" 0 2).1 := by
  constructor
  · decide
  · decide

/-- C1, witness: the amended theorem applied at a concrete bad format
(`"gif"`) and at a concrete good format (`"jpeg"`). -/
theorem claim_C1_witness :
    converter_heic (FS.mk true [Entry.file "a.heic"] []) ["src"] ["dst"]
      (fun _ => true) 95 0 true true true true false "gif" 0 2
      = ([], Except.error Err.valueError)
    ∧ ∃ resumo, (converter_heic (FS.mk true [Entry.file "a.heic"] []) ["src"]
        ["dst"] (fun _ => true) 95 0 true true true true false "jpeg" 0 2).2
      = Except.ok resumo :=
  ⟨(claim_C1 (FS.mk true [Entry.file "a.heic"] []) ["src"] ["dst"]
      (fun _ => true) 95 0 true true true true false "gif" 0 2 rfl).1
      (by decide),
   (claim_C1 (FS.mk true [Entry.file "a.heic"] []) ["src"] ["dst"]
      (fun _ => true) 95 0 true true true true false "jpeg" 0 2 rfl).2
      (by decide)⟩

/-- C2 (amended): with the recursive flag true the enumerator yields
`(root ++ rel, rel)` exactly for the files of the tree (at any depth) whose
extension lowercases to `.heic`/`.heif`; with the flag false it yields
exactly the direct-child ENTRIES — files or directories alike — whose name
has a matching extension (`os.listdir` reports directories too and the code
never checks `isfile`).  Non-matching names are never yielded. -/
theorem claim_C2 (origem : List String) (arvore : List Entry)
    (a r : List String) :
    ((a, r) ∈ _listar_ficheiros_heic origem arvore true ↔
      HeicFile arvore r ∧ a = origem ++ r)
    ∧ ((a, r) ∈ _listar_ficheiros_heic origem arvore false ↔
      ∃ e, e ∈ arvore ∧ extOk e.nome = true ∧ r = [e.nome] ∧
        a = origem ++ [e.nome]) :=
  ⟨mem_listar_true_iff origem arvore a r, mem_listar_false_iff origem arvore a r⟩

/-- C2, counterexample to the claim as stated: in non-recursive mode a
DIRECTORY named `x.heic` is yielded by the enumerator even though it is not
a file — the claim's "exactly for every file" fails. -/
theorem claim_C2_cex :
    (["src", "x.heic"], ["x.heic"])
        ∈ _listar_ficheiros_heic ["src"] [Entry.dir "x.heic" []] false
    ∧ ¬ HeicFile [Entry.dir "x.heic" []] ["x.heic"] := by
  constructor
  · decide
  · intro h
    cases h with
    | file hm _ => simp at hm
    | dir hm hrest => cases hrest

/-- C3: when the source root is not a directory (missing or a plain file,
`os.path.isdir` false either way), the run fails immediately with
`FileNotFoundError` and an empty event trace: nothing is enumerated,
created or converted. -/
theorem claim_C3 (fs : FS) (origem destino : List String)
    (ok : List String → Bool) (qualidade subsampling : Int)
    (progressivo otimizar manter_metadata recursivo overwrite : Bool)
    (formato : String) (threads : Int) (cpuCount : Nat)
    (hdir : fs.origemEhDir = false) :
    converter_heic fs origem destino ok qualidade subsampling progressivo
      otimizar manter_metadata recursivo overwrite formato threads cpuCount
      = ([], Except.error Err.fileNotFound) := by
  unfold converter_heic
  rw [hdir]
  rw [if_pos (show (!false) = true from rfl)]

/-- C3, witness: a missing source directory at a concrete input. -/
theorem claim_C3_witness :
    converter_heic (FS.mk false [] []) ["nada"] ["dst"] (fun _ => true)
      95 0 true true true true false "jpeg" 0 2
      = ([], Except.error Err.fileNotFound) :=
  claim_C3 (FS.mk false [] []) ["nada"] ["dst"] (fun _ => true)
    95 0 true true true true false "jpeg" 0 2 rfl

/-- C6: for every decoded image and every option set, png output never
carries an EXIF blob (even with preserve-metadata on), and jpeg output is
encoded with the color mode forced to 3-channel `"RGB"`. -/
theorem claim_C6 (exifTranspose : ImageInfo → ImageInfo) (imagem : ImageInfo)
    (qualidade subsampling : Int)
    (progressivo otimizar manter_metadata : Bool) :
    Except.map Saved.exif
        (_salvar_imagem exifTranspose imagem "png" qualidade subsampling
          progressivo otimizar manter_metadata) = Except.ok none
    ∧ Except.map Saved.mode
        (_salvar_imagem exifTranspose imagem "jpeg" qualidade subsampling
          progressivo otimizar manter_metadata) = Except.ok "RGB" :=
  ⟨rfl, rfl⟩

/-- C9: a run with a valid configuration whose enumeration is empty returns
`(0, 0)` at once, and its whole event trace is the single creation of the
destination root — the destination tree is not touched further. -/
theorem claim_C9 (fs : FS) (origem destino : List String)
    (ok : List String → Bool) (qualidade subsampling : Int)
    (progressivo otimizar manter_metadata recursivo overwrite : Bool)
    (formato : String) (threads : Int) (cpuCount : Nat)
    (hdir : fs.origemEhDir = true)
    (hfmt : pyLower formato = "jpeg" ∨ pyLower formato = "png")
    (hvazio : _listar_ficheiros_heic origem fs.arvore recursivo = []) :
    converter_heic fs origem destino ok qualidade subsampling progressivo
      otimizar manter_metadata recursivo overwrite formato threads cpuCount
      = ([Event.makedirs destino], Except.ok (0, 0)) := by
  obtain ⟨d, arv, ex⟩ := fs
  have hd : d = true := hdir
  subst hd
  rw [converter_heic_valido arv ex origem destino ok qualidade subsampling
    progressivo otimizar manter_metadata recursivo overwrite formato threads
    cpuCount (formato_bool_of_or hfmt)]
  rw [show _listar_ficheiros_heic origem
        (FS.mk true arv ex).arvore recursivo
      = _listar_ficheiros_heic origem arv recursivo from rfl] at hvazio
  rw [hvazio]
  rfl

/-- C9, witness: an empty source directory at a concrete input. -/
theorem claim_C9_witness :
    converter_heic (FS.mk true [] []) ["src"] ["dst"] (fun _ => true)
      95 0 true true true true false "jpeg" 0 2
      = ([Event.makedirs ["dst"]], Except.ok (0, 0)) :=
  claim_C9 (FS.mk true [] []) ["src"] ["dst"] (fun _ => true)
    95 0 true true true true false "jpeg" 0 2 rfl (Or.inl (by decide)) rfl

/-- C7: every enumerated file's relative path ends in a name whose
extension lowercases to `.heic`/`.heif`, and its output path is the
destination root joined with the same relative directories and the same
stem, the extension replaced by `.jpg` for jpeg and `.png` for png. -/
theorem claim_C7 (origem : List String) (arvore : List Entry) (recursivo : Bool)
    (destino : List String) (formato : String) (a r : List String)
    (hmem : (a, r) ∈ _listar_ficheiros_heic origem arvore recursivo)
    (hfmt : formato = "jpeg" ∨ formato = "png") :
    ∃ pastas nome stem ext,
      r = pastas ++ [nome] ∧ nome = stem ++ ext ∧
      (pyLower ext = ".heic" ∨ pyLower ext = ".heif") ∧
      destino_para destino formato r
        = destino ++ pastas
            ++ [stem ++ (if formato = "jpeg" then ".jpg" else ".png")] := by
  have hshape : ∃ ds n, r = ds ++ [n] ∧ extOk n = true := by
    cases recursivo with
    | true =>
      obtain ⟨hh, _⟩ := (mem_listar_true_iff origem arvore a r).mp hmem
      exact heicFile_shape hh
    | false =>
      obtain ⟨e, _, hok, rfl, _⟩ := (mem_listar_false_iff origem arvore a r).mp hmem
      exact ⟨[], e.nome, rfl, hok⟩
  obtain ⟨ds, n, rfl, hok⟩ := hshape
  refine ⟨ds, n, (splitext n).1, (splitext n).2, rfl, (splitext_recomb n).symm,
    (extOk_iff n).mp hok, ?_⟩
  unfold destino_para
  rw [replaceLastExt_concat]
  rcases hfmt with h | h <;> rw [h] <;> simp [List.append_assoc]

/-- C7, witness: the theorem applied at a single-file source and jpeg
format. -/
theorem claim_C7_witness :
    ∃ pastas nome stem ext,
      (["a.heic"] : List String) = pastas ++ [nome] ∧ nome = stem ++ ext ∧
      (pyLower ext = ".heic" ∨ pyLower ext = ".heif") ∧
      destino_para ["dst"] "jpeg" ["a.heic"]
        = ["dst"] ++ pastas
            ++ [stem ++ (if ("jpeg" : String) = "jpeg" then ".jpg" else ".png")] :=
  claim_C7 ["src"] [Entry.file "a.heic"] true ["dst"] "jpeg"
    ["src", "a.heic"] ["a.heic"] (by decide) (Or.inl rfl)

/-- C4: with overwrite off, an enumerated file whose computed output path
already exists is never submitted — no submission event carries its input
path, no task pairs it with any output — and the returned tallies are the
success/error counts over the submitted-task list, which excludes it. -/
theorem claim_C4 (fs : FS) (origem destino : List String)
    (ok : List String → Bool) (qualidade subsampling : Int)
    (progressivo otimizar manter_metadata recursivo : Bool)
    (formato : String) (threads : Int) (cpuCount : Nat) (a r : List String)
    (hdir : fs.origemEhDir = true)
    (hfmt : pyLower formato = "jpeg" ∨ pyLower formato = "png")
    (hmem : (a, r) ∈ _listar_ficheiros_heic origem fs.arvore recursivo)
    (hex : fs.existentes.contains
      (destino_para destino (pyLower formato) r) = true) :
    (∀ s f, Event.submit a s f ∉
        (converter_heic fs origem destino ok qualidade subsampling progressivo
          otimizar manter_metadata recursivo false formato threads cpuCount).1)
    ∧ (∀ s, (a, s) ∉
        tarefasDe (_listar_ficheiros_heic origem fs.arvore recursivo) destino
          (pyLower formato) fs.existentes false)
    ∧ (converter_heic fs origem destino ok qualidade subsampling progressivo
        otimizar manter_metadata recursivo false formato threads cpuCount).2
      = Except.ok (contarResultados ok
          (tarefasDe (_listar_ficheiros_heic origem fs.arvore recursivo) destino
            (pyLower formato) fs.existentes false)) := by
  obtain ⟨d, arv, ex⟩ := fs
  have hd : d = true := hdir
  subst hd
  have hmem2 : (a, r) ∈ _listar_ficheiros_heic origem arv recursivo := hmem
  have hex2 : ex.contains (destino_para destino (pyLower formato) r) = true := hex
  rw [show (FS.mk true arv ex).arvore = arv from rfl,
    show (FS.mk true arv ex).existentes = ex from rfl]
  have hnotT : ∀ s, (a, s) ∉
      tarefasDe (_listar_ficheiros_heic origem arv recursivo) destino
        (pyLower formato) ex false := by
    intro s hT
    obtain ⟨par, hpar, hskip, heq⟩ := (mem_tarefasDe_iff _ _ _ _ _ _).mp hT
    rw [Prod.mk.injEq] at heq
    obtain ⟨ha, _⟩ := heq
    have hpar2 : (par.1, par.2) ∈ _listar_ficheiros_heic origem arv recursivo := by
      rw [Prod.mk.eta]
      exact hpar
    have h1 : par.1 = origem ++ par.2 := listar_fst hpar2
    have h2 : a = origem ++ r := listar_fst hmem2
    have hr : par.2 = r :=
      List.append_cancel_left
        (show origem ++ par.2 = origem ++ r by rw [← h1, ← ha, h2])
    rw [hr] at hskip
    rw [show (!false) = true from rfl, Bool.true_and] at hskip
    rw [hex2] at hskip
    exact absurd hskip (by decide)
  have hne : ¬((_listar_ficheiros_heic origem arv recursivo).isEmpty = true) := by
    rw [isEmpty_false_of_mem hmem2]
    decide
  have hrw := converter_heic_valido arv ex origem destino ok qualidade subsampling
    progressivo otimizar manter_metadata recursivo false formato threads cpuCount
    (formato_bool_of_or hfmt)
  have hEv : (converter_heic (FS.mk true arv ex) origem destino ok qualidade
      subsampling progressivo otimizar manter_metadata recursivo false formato
      threads cpuCount).1
      = Event.makedirs destino ::
          eventosCiclo (_listar_ficheiros_heic origem arv recursivo) destino
            (pyLower formato) ex false := by
    rw [hrw, if_neg hne]
  have hRes : (converter_heic (FS.mk true arv ex) origem destino ok qualidade
      subsampling progressivo otimizar manter_metadata recursivo false formato
      threads cpuCount).2
      = Except.ok (contarResultados ok
          (tarefasDe (_listar_ficheiros_heic origem arv recursivo) destino
            (pyLower formato) ex false)) := by
    rw [hrw, if_neg hne]
  refine ⟨?_, hnotT, hRes⟩
  intro s f hmemE
  rw [hEv] at hmemE
  rcases List.mem_cons.mp hmemE with h | h
  · simp at h
  · obtain ⟨par, hpar, hskip, ha, hs, _⟩ :=
      (submit_mem_eventosCiclo_iff _ _ _ _ _ _ _ _).mp h
    refine hnotT s ((mem_tarefasDe_iff _ _ _ _ _ _).mpr ⟨par, hpar, hskip, ?_⟩)
    rw [ha, hs]

/-- C4, witness: a single file whose output already exists — it joins no
task list, and the run returns the tallies over the empty task list. -/
theorem claim_C4_witness :
    (["src", "a.heic"], ["dst", "a.jpg"]) ∉
      tarefasDe [(["src", "a.heic"], ["a.heic"])] ["dst"] "jpeg"
        [["dst", "a.jpg"]] false
    ∧ (converter_heic (FS.mk true [Entry.file "a.heic"] [["dst", "a.jpg"]])
        ["src"] ["dst"] (fun _ => true) 95 0 true true true true false "jpeg"
        0 2).2 = Except.ok (0, 0) :=
  ⟨(claim_C4 (FS.mk true [Entry.file "a.heic"] [["dst", "a.jpg"]]) ["src"]
      ["dst"] (fun _ => true) 95 0 true true true true "jpeg" 0 2
      ["src", "a.heic"] ["a.heic"] rfl (Or.inl (by decide)) (by decide)
      (by decide)).2.1 ["dst", "a.jpg"],
   (claim_C4 (FS.mk true [Entry.file "a.heic"] [["dst", "a.jpg"]]) ["src"]
      ["dst"] (fun _ => true) 95 0 true true true true "jpeg" 0 2
      ["src", "a.heic"] ["a.heic"] rfl (Or.inl (by decide)) (by decide)
      (by decide)).2.2⟩

/-- C8: a valid run returns `Except.ok (convertidos, erros)` where
`convertidos` counts exactly the submitted tasks whose conversion succeeds
and `erros` exactly those that fail — each submitted task lands in exactly
one tally, their sum is the number of submitted tasks, and that number
equals the number of submission events in the trace.  (In the embedding the
tally fold consumes every submitted future exactly once — no retry — and
the pair is returned only after the fold has consumed them all.) -/
theorem claim_C8 (fs : FS) (origem destino : List String)
    (ok : List String → Bool) (qualidade subsampling : Int)
    (progressivo otimizar manter_metadata recursivo overwrite : Bool)
    (formato : String) (threads : Int) (cpuCount : Nat)
    (hdir : fs.origemEhDir = true)
    (hfmt : pyLower formato = "jpeg" ∨ pyLower formato = "png") :
    ∃ convertidos erros,
      (converter_heic fs origem destino ok qualidade subsampling progressivo
        otimizar manter_metadata recursivo overwrite formato threads
        cpuCount).2 = Except.ok (convertidos, erros)
      ∧ convertidos
        = ((tarefasDe (_listar_ficheiros_heic origem fs.arvore recursivo)
            destino (pyLower formato) fs.existentes overwrite).filter
              (fun t => ok t.1)).length
      ∧ erros
        = ((tarefasDe (_listar_ficheiros_heic origem fs.arvore recursivo)
            destino (pyLower formato) fs.existentes overwrite).filter
              (fun t => !ok t.1)).length
      ∧ convertidos + erros
        = (tarefasDe (_listar_ficheiros_heic origem fs.arvore recursivo)
            destino (pyLower formato) fs.existentes overwrite).length
      ∧ (((converter_heic fs origem destino ok qualidade subsampling
            progressivo otimizar manter_metadata recursivo overwrite formato
            threads cpuCount).1).filter ehSubmit).length
        = (tarefasDe (_listar_ficheiros_heic origem fs.arvore recursivo)
            destino (pyLower formato) fs.existentes overwrite).length := by
  obtain ⟨d, arv, ex⟩ := fs
  have hd : d = true := hdir
  subst hd
  rw [show (FS.mk true arv ex).arvore = arv from rfl,
    show (FS.mk true arv ex).existentes = ex from rfl]
  have hrw := converter_heic_valido arv ex origem destino ok qualidade subsampling
    progressivo otimizar manter_metadata recursivo overwrite formato threads
    cpuCount (formato_bool_of_or hfmt)
  by_cases hE : (_listar_ficheiros_heic origem arv recursivo).isEmpty = true
  · have hnil : _listar_ficheiros_heic origem arv recursivo = [] :=
      List.isEmpty_iff.mp hE
    rw [hrw, if_pos hE, hnil]
    exact ⟨0, 0, rfl, rfl, rfl, rfl, rfl⟩
  · rw [hrw, if_neg hE]
    have hcs := contarResultados_spec ok
      (tarefasDe (_listar_ficheiros_heic origem arv recursivo) destino
        (pyLower formato) ex overwrite)
    refine ⟨_, _, by rw [hcs], rfl, rfl,
      length_filter_add_length_filter_not _ _, ?_⟩
    rw [show (Event.makedirs destino ::
          eventosCiclo (_listar_ficheiros_heic origem arv recursivo) destino
            (pyLower formato) ex overwrite,
        Except.ok (contarResultados ok
          (tarefasDe (_listar_ficheiros_heic origem arv recursivo) destino
            (pyLower formato) ex overwrite))).1
        = Event.makedirs destino ::
            eventosCiclo (_listar_ficheiros_heic origem arv recursivo) destino
              (pyLower formato) ex overwrite from rfl]
    rw [List.filter_cons_of_neg (by simp [ehSubmit])]
    exact countSubmits_eventosCiclo _ _ _ _ _

/-- C8, witness: two files, one succeeding and one failing — the run
reports `(1, 1)`, the partition counts, their sum, and one submission event
per task. -/
theorem claim_C8_witness :
    ∃ convertidos erros,
      (converter_heic (FS.mk true [Entry.file "a.heic", Entry.file "b.heic"] [])
        ["src"] ["dst"] (fun p => p == ["src", "a.heic"]) 95 0 true true true
        true false "jpeg" 0 2).2 = Except.ok (convertidos, erros)
      ∧ convertidos
        = ((tarefasDe [(["src", "a.heic"], ["a.heic"]),
              (["src", "b.heic"], ["b.heic"])] ["dst"] "jpeg" [] false).filter
            (fun t => (fun p => p == ["src", "a.heic"]) t.1)).length
      ∧ erros
        = ((tarefasDe [(["src", "a.heic"], ["a.heic"]),
              (["src", "b.heic"], ["b.heic"])] ["dst"] "jpeg" [] false).filter
            (fun t => !(fun p => p == ["src", "a.heic"]) t.1)).length
      ∧ convertidos + erros
        = (tarefasDe [(["src", "a.heic"], ["a.heic"]),
            (["src", "b.heic"], ["b.heic"])] ["dst"] "jpeg" [] false).length
      ∧ (((converter_heic (FS.mk true [Entry.file "a.heic", Entry.file "b.heic"]
            []) ["src"] ["dst"] (fun p => p == ["src", "a.heic"]) 95 0 true true
            true true false "jpeg" 0 2).1).filter ehSubmit).length
        = (tarefasDe [(["src", "a.heic"], ["a.heic"]),
            (["src", "b.heic"], ["b.heic"])] ["dst"] "jpeg" [] false).length :=
  claim_C8 (FS.mk true [Entry.file "a.heic", Entry.file "b.heic"] []) ["src"]
    ["dst"] (fun p => p == ["src", "a.heic"]) 95 0 true true true true false
    "jpeg" 0 2 rfl (Or.inl (by decide))

/-- C10: the programmatic entry point lowercases the format string before
validating it — the run fails with `ValueError` exactly when the lowercased
value is outside `{jpeg, png}` — and every submitted task receives the
lowercased value as its encoding format, with its output path computed by
`destino_para` under that same lowercased value. -/
theorem claim_C10 (fs : FS) (origem destino : List String)
    (ok : List String → Bool) (qualidade subsampling : Int)
    (progressivo otimizar manter_metadata recursivo overwrite : Bool)
    (formato : String) (threads : Int) (cpuCount : Nat)
    (hdir : fs.origemEhDir = true) :
    ((converter_heic fs origem destino ok qualidade subsampling progressivo
        otimizar manter_metadata recursivo overwrite formato threads
        cpuCount).2 = Except.error Err.valueError ↔
      ¬(pyLower formato = "jpeg" ∨ pyLower formato = "png"))
    ∧ (∀ a s f, Event.submit a s f ∈
        (converter_heic fs origem destino ok qualidade subsampling progressivo
          otimizar manter_metadata recursivo overwrite formato threads
          cpuCount).1 →
        f = pyLower formato ∧
        ∃ r, (a, r) ∈ _listar_ficheiros_heic origem fs.arvore recursivo ∧
          s = destino_para destino (pyLower formato) r) := by
  obtain ⟨d, arv, ex⟩ := fs
  have hd : d = true := hdir
  subst hd
  rw [show (FS.mk true arv ex).arvore = arv from rfl]
  by_cases hfmt : pyLower formato = "jpeg" ∨ pyLower formato = "png"
  · have hrw := converter_heic_valido arv ex origem destino ok qualidade
      subsampling progressivo otimizar manter_metadata recursivo overwrite
      formato threads cpuCount (formato_bool_of_or hfmt)
    constructor
    · rw [hrw]
      by_cases hE : (_listar_ficheiros_heic origem arv recursivo).isEmpty = true
      · rw [if_pos hE]
        exact iff_of_false (by simp) (not_not_intro hfmt)
      · rw [if_neg hE]
        exact iff_of_false (by simp) (not_not_intro hfmt)
    · intro a s f hmemE
      rw [hrw] at hmemE
      by_cases hE : (_listar_ficheiros_heic origem arv recursivo).isEmpty = true
      · rw [if_pos hE] at hmemE
        simp at hmemE
      · rw [if_neg hE] at hmemE
        have hmemE2 : Event.submit a s f ∈ Event.makedirs destino ::
            eventosCiclo (_listar_ficheiros_heic origem arv recursivo) destino
              (pyLower formato) ex overwrite := hmemE
        rcases List.mem_cons.mp hmemE2 with h | h
        · simp at h
        · obtain ⟨par, hpar, _, ha, hs, hf⟩ :=
            (submit_mem_eventosCiclo_iff _ _ _ _ _ _ _ _).mp h
          refine ⟨hf, par.2, ?_, hs⟩
          rw [ha, Prod.mk.eta]
          exact hpar
  · have hb : (pyLower formato == "jpeg" || pyLower formato == "png") = false :=
      Bool.or_eq_false_iff.mpr
        ⟨beq_eq_false_iff_ne.mpr fun he => hfmt (Or.inl he),
         beq_eq_false_iff_ne.mpr fun he => hfmt (Or.inr he)⟩
    rw [converter_heic_invalido arv ex origem destino ok qualidade subsampling
      progressivo otimizar manter_metadata recursivo overwrite formato threads
      cpuCount hb]
    refine ⟨iff_of_true rfl hfmt, ?_⟩
    intro a s f hmemE
    simp at hmemE

/-- C10, witness: with the format given as `"JPEG"`, the submitted task
carries the lowercased `"jpeg"` and its output path is computed under it. -/
theorem claim_C10_witness :
    "jpeg" = pyLower "JPEG" ∧
    ∃ r, (["src", "a.heic"], r)
        ∈ _listar_ficheiros_heic ["src"] [Entry.file "a.heic"] true ∧
      ["dst", "a.jpg"] = destino_para ["dst"] (pyLower "JPEG") r :=
  (claim_C10 (FS.mk true [Entry.file "a.heic"] []) ["src"] ["dst"]
      (fun _ => true) 95 0 true true true true false "JPEG" 0 2 rfl).2
    ["src", "a.heic"] ["dst", "a.jpg"] "jpeg" (by decide)

/-- C5: if a first run with overwrite off converted every enumerated file
successfully (none skipped, none failed), then a second run over the same
source — whose destination now also holds the outputs written by the
successful tasks — submits nothing and reports `(0, 0)`. -/
theorem claim_C5 (fs : FS) (origem destino : List String)
    (ok : List String → Bool) (qualidade subsampling : Int)
    (progressivo otimizar manter_metadata recursivo : Bool)
    (formato : String) (threads : Int) (cpuCount : Nat)
    (hdir : fs.origemEhDir = true)
    (hfmt : pyLower formato = "jpeg" ∨ pyLower formato = "png")
    (hprimeira : ∀ par ∈ _listar_ficheiros_heic origem fs.arvore recursivo,
        ok par.1 = true ∧
        fs.existentes.contains
          (destino_para destino (pyLower formato) par.2) = false) :
    (converter_heic
        (FS.mk true fs.arvore
          (fs.existentes ++
            ((tarefasDe (_listar_ficheiros_heic origem fs.arvore recursivo)
                destino (pyLower formato) fs.existentes false).filter
              (fun t => ok t.1)).map Prod.snd))
        origem destino ok qualidade subsampling progressivo otimizar
        manter_metadata recursivo false formato threads cpuCount).2
      = Except.ok (0, 0)
    ∧ ∀ a s f, Event.submit a s f ∉
        (converter_heic
          (FS.mk true fs.arvore
            (fs.existentes ++
              ((tarefasDe (_listar_ficheiros_heic origem fs.arvore recursivo)
                  destino (pyLower formato) fs.existentes false).filter
                (fun t => ok t.1)).map Prod.snd))
          origem destino ok qualidade subsampling progressivo otimizar
          manter_metadata recursivo false formato threads cpuCount).1 := by
  obtain ⟨d, arv, ex⟩ := fs
  have hd : d = true := hdir
  subst hd
  have hp : ∀ par ∈ _listar_ficheiros_heic origem arv recursivo,
      ok par.1 = true ∧
      ex.contains (destino_para destino (pyLower formato) par.2) = false :=
    hprimeira
  rw [show (FS.mk true arv ex).arvore = arv from rfl,
    show (FS.mk true arv ex).existentes = ex from rfl]
  have hrw := converter_heic_valido arv
    (ex ++ ((tarefasDe (_listar_ficheiros_heic origem arv recursivo) destino
        (pyLower formato) ex false).filter (fun t => ok t.1)).map Prod.snd)
    origem destino ok qualidade subsampling progressivo otimizar manter_metadata
    recursivo false formato threads cpuCount (formato_bool_of_or hfmt)
  rw [hrw]
  by_cases hE : (_listar_ficheiros_heic origem arv recursivo).isEmpty = true
  · rw [if_pos hE]
    refine ⟨rfl, ?_⟩
    intro a s f hmemE
    simp at hmemE
  · rw [if_neg hE]
    have hsalta : ∀ par ∈ _listar_ficheiros_heic origem arv recursivo,
        (!false &&
          (ex ++ ((tarefasDe (_listar_ficheiros_heic origem arv recursivo)
              destino (pyLower formato) ex false).filter
            (fun t => ok t.1)).map Prod.snd).contains
            (destino_para destino (pyLower formato) par.2)) = true := by
      intro par hpar
      rw [show (!false) = true from rfl, Bool.true_and]
      refine List.elem_iff.mpr ?_
      refine List.mem_append_right _ ?_
      refine List.mem_map.mpr
        ⟨(par.1, destino_para destino (pyLower formato) par.2), ?_, rfl⟩
      refine List.mem_filter.mpr ⟨?_, (hp par hpar).1⟩
      refine (mem_tarefasDe_iff _ _ _ _ _ _).mpr ⟨par, hpar, ?_, rfl⟩
      rw [show (!false) = true from rfl, Bool.true_and]
      exact (hp par hpar).2
    have hT2 : tarefasDe (_listar_ficheiros_heic origem arv recursivo) destino
        (pyLower formato)
        (ex ++ ((tarefasDe (_listar_ficheiros_heic origem arv recursivo)
            destino (pyLower formato) ex false).filter
          (fun t => ok t.1)).map Prod.snd) false = [] :=
      tarefasDe_eq_nil _ _ _ _ _ hsalta
    constructor
    · rw [hT2]
      rfl
    · intro a s f hmemE
      have hmemE2 : Event.submit a s f ∈ Event.makedirs destino ::
          eventosCiclo (_listar_ficheiros_heic origem arv recursivo) destino
            (pyLower formato)
            (ex ++ ((tarefasDe (_listar_ficheiros_heic origem arv recursivo)
                destino (pyLower formato) ex false).filter
              (fun t => ok t.1)).map Prod.snd) false := hmemE
      rcases List.mem_cons.mp hmemE2 with h | h
      · simp at h
      · obtain ⟨par, hpar, hskip, _, _, _⟩ :=
          (submit_mem_eventosCiclo_iff _ _ _ _ _ _ _ _).mp h
        rw [hsalta par hpar] at hskip
        exact absurd hskip (by decide)

/-- C5, witness: a one-file source whose output exists after a successful
first run — the second run reports `(0, 0)`. -/
theorem claim_C5_witness :
    (converter_heic (FS.mk true [Entry.file "a.heic"] [["dst", "a.jpg"]])
        ["src"] ["dst"] (fun _ => true) 95 0 true true true true false "jpeg"
        0 2).2 = Except.ok (0, 0) :=
  (claim_C5 (FS.mk true [Entry.file "a.heic"] []) ["src"] ["dst"]
    (fun _ => true) 95 0 true true true true "jpeg" 0 2 rfl
    (Or.inl (by decide)) (by decide)).1

end ConverterHeic
